import Mathlib

/-!
# Verification of the task-scheduler core

Shallow embedding of the scheduling subsystem of `jagritv/task-scheduler`:
the task model (`src/models/task.model.ts`), the dependency resolver
(`src/core/dependency-resolver.ts`), the worker pool
(`src/core/worker-pool.ts`), the scheduler poll tick
(`src/core/scheduler.ts`), and a model of the JSON (de)serialization used
for the stored dependency list.

Conventions: JavaScript numbers used as counters are embedded as `Int`;
timestamps as `Nat`; a JS `Map`'s key set (insertion-ordered) as a
`List String`; a JS `Set` as a `List String` with idempotent insertion.
-/

namespace Sched

/-! ## Task model (src/src/models/task.model.ts) -/

inductive TaskStatus where
  | QUEUED
  | RUNNING
  | COMPLETED
  | FAILED
deriving DecidableEq, Repr, BEq

structure Task where
  id : String
  type : String
  duration_ms : Nat
  status : TaskStatus
  dependencies : List String
  created_at : Nat
  updated_at : Nat
deriving DecidableEq, Repr

/-! ## Dependency Resolver (src/core/dependency-resolver.ts)

`completedTaskIds` is a JS `Set<string>`: embedded as a duplicate-free
list in insertion order; `Set.add` is idempotent insertion. -/

structure DependencyResolver where
  completedTaskIds : List String
deriving DecidableEq, Repr

def DependencyResolver.registerCompletedTask
    (r : DependencyResolver) (taskId : String) : DependencyResolver :=
  if r.completedTaskIds.contains taskId then r
  else { r with completedTaskIds := r.completedTaskIds ++ [taskId] }

/-- dependency-resolver.ts lines 24-37: status check, empty-dependency
check (`!task.dependencies || task.dependencies.length === 0`; the model
has no `null`/`undefined` dependencies, so only emptiness remains), then
`every` over the completed-set. -/
def DependencyResolver.isEligibleToRun
    (r : DependencyResolver) (task : Task) : Bool :=
  if task.status == TaskStatus.RUNNING || task.status == TaskStatus.COMPLETED then
    false
  else if task.dependencies.isEmpty then
    true
  else
    task.dependencies.all fun depId => r.completedTaskIds.contains depId

def DependencyResolver.getEligibleTasks
    (r : DependencyResolver) (tasks : List Task) : List Task :=
  tasks.filter fun task => r.isEligibleToRun task

def DependencyResolver.reset (_r : DependencyResolver) : DependencyResolver :=
  { completedTaskIds := [] }

def DependencyResolver.loadCompletedTasks
    (r : DependencyResolver) (ids : List String) : DependencyResolver :=
  ids.foldl (fun acc i => acc.registerCompletedTask i) r

/-! ## Worker Pool (src/src/core/worker-pool.ts)

`runningTasks` is a JS `Map<string, Timeout>` (insertion-ordered); its key
list is what the claims observe, so the map is embedded as the key list.
`activeTaskCount` is a JS number used as a counter: embedded as `Int`. -/

structure WorkerPool where
  activeTaskCount : Int
  maxConcurrentTasks : Int
  runningTasks : List String
deriving DecidableEq, Repr

def WorkerPool.new (maxConcurrentTasks : Int) : WorkerPool :=
  { activeTaskCount := 0, maxConcurrentTasks := maxConcurrentTasks,
    runningTasks := [] }

/-- worker-pool.ts lines 28-30. -/
def WorkerPool.hasCapacity (p : WorkerPool) : Bool :=
  p.activeTaskCount < p.maxConcurrentTasks

def WorkerPool.getActiveTaskCount (p : WorkerPool) : Int :=
  p.activeTaskCount

def WorkerPool.getRunningTaskIds (p : WorkerPool) : List String :=
  p.runningTasks

/-- worker-pool.ts lines 53-84: reject on no capacity, reject on duplicate
id, otherwise increment the count, emit taskStarted, schedule the timer
and record the map entry.  The returned pool is the state after the whole
call; the micro-step order within the call is modelled separately by
`WorkerPool.executeTaskTrace`. -/
def WorkerPool.executeTask (p : WorkerPool) (task : Task) : Bool × WorkerPool :=
  if !p.hasCapacity then (false, p)
  else if p.runningTasks.contains task.id then (false, p)
  else (true, { p with
      activeTaskCount := p.activeTaskCount + 1,
      runningTasks := p.runningTasks ++ [task.id] })

/-- worker-pool.ts lines 71-78: the completion timer callback deletes the
map entry and decrements the count.  The callback can only fire while its
entry is still in the map (cancelTask/shutdown call `clearTimeout` before
removing the entry, and executeTask never overwrites an entry), so the
firable completions are exactly those with `taskId` in `runningTasks`;
for any other id this step is not enabled, embedded as a no-op. -/
def WorkerPool.completeTask (p : WorkerPool) (taskId : String) : WorkerPool :=
  if p.runningTasks.contains taskId then
    { p with
      runningTasks := p.runningTasks.erase taskId,
      activeTaskCount := p.activeTaskCount - 1 }
  else p

/-- worker-pool.ts lines 91-106. -/
def WorkerPool.cancelTask (p : WorkerPool) (taskId : String) : Bool × WorkerPool :=
  if p.runningTasks.contains taskId then
    (true, { p with
      runningTasks := p.runningTasks.erase taskId,
      activeTaskCount := p.activeTaskCount - 1 })
  else (false, p)

/-- worker-pool.ts lines 111-119: clear every timer and entry, zero the
count. -/
def WorkerPool.shutdown (p : WorkerPool) : WorkerPool :=
  { p with runningTasks := [], activeTaskCount := 0 }

/-- One public pool operation, as observed at its completion boundary. -/
inductive PoolOp where
  | exec (task : Task)
  | complete (taskId : String)
  | cancel (taskId : String)
  | shutdown
deriving Repr

def WorkerPool.applyOp (p : WorkerPool) : PoolOp → WorkerPool
  | PoolOp.exec t => (p.executeTask t).2
  | PoolOp.complete tid => p.completeTask tid
  | PoolOp.cancel tid => (p.cancelTask tid).2
  | PoolOp.shutdown => p.shutdown

def WorkerPool.runOps (p : WorkerPool) (ops : List PoolOp) : WorkerPool :=
  ops.foldl WorkerPool.applyOp p

/-! ## Micro-step refinement of executeTask (worker-pool.ts lines 53-84)

The source order of effects on the acceptance path is:
line 65 `this.activeTaskCount++`, line 68 `this.emit('taskStarted', task)`
(synchronous), line 71 `setTimeout(...)`, line 81
`this.runningTasks.set(task.id, timeout)`.  Each trace entry pairs the
effect with the pool state at the moment it happens. -/

inductive PoolMicroEvent where
  | incrementCount
  | emitStarted
  | scheduleExecution
  | recordEntry
deriving DecidableEq, Repr

def WorkerPool.executeTaskTrace (p : WorkerPool) (task : Task) :
    List (PoolMicroEvent × WorkerPool) :=
  if !p.hasCapacity then []
  else if p.runningTasks.contains task.id then []
  else
    let s1 : WorkerPool := { p with activeTaskCount := p.activeTaskCount + 1 }
    let s2 : WorkerPool := { s1 with runningTasks := s1.runningTasks ++ [task.id] }
    [(PoolMicroEvent.incrementCount, s1),
     (PoolMicroEvent.emitStarted, s1),
     (PoolMicroEvent.scheduleExecution, s1),
     (PoolMicroEvent.recordEntry, s2)]

/-! ## Scheduler poll tick (src/core/scheduler.ts lines 76-136)

The persistent store is a list of task rows in storage order; the
scheduler's query `prisma.task.findMany({ where: { status: QUEUED } })`
(lines 99-101) carries no `orderBy`, so it returns the rows of matching
status in store order, unsorted.  Transient store failures during the
per-task `update` to RUNNING (lines 125-128) are modelled by an oracle
`failOn`; a failing update throws, which aborts the loop (caught by
`poll`, lines 86-87). -/

structure TaskStore where
  rows : List Task
deriving DecidableEq, Repr

def TaskStore.findManyQueued (store : TaskStore) : List Task :=
  store.rows.filter fun r => r.status == TaskStatus.QUEUED

def TaskStore.updateStatus (store : TaskStore) (tid : String)
    (st : TaskStatus) : TaskStore :=
  { rows := store.rows.map fun r =>
      if r.id == tid then { r with status := st } else r }

/-- Externally visible effects of one admission pass, in order. -/
inductive TickEvent where
  | writeRunning (tid : String)
  | writeFailed (tid : String)
  | submit (tid : String)
deriving DecidableEq, Repr

/-- scheduler.ts lines 119-135: for each eligible task in order, stop when
the pool has no capacity, write RUNNING to the store (a failure throws and
ends the pass), set the in-memory status, submit to the pool. -/
def admitLoop (failOn : String → Bool) :
    List Task → WorkerPool → TaskStore → WorkerPool × TaskStore × List TickEvent
  | [], pool, store => (pool, store, [])
  | t :: rest, pool, store =>
    if !pool.hasCapacity then (pool, store, [])
    else if failOn t.id then (pool, store, [TickEvent.writeFailed t.id])
    else
      let store1 := store.updateStatus t.id TaskStatus.RUNNING
      let t1 := { t with status := TaskStatus.RUNNING }
      let pool1 := (pool.executeTask t1).2
      let res := admitLoop failOn rest pool1 store1
      (res.1, res.2.1, TickEvent.writeRunning t.id :: TickEvent.submit t.id :: res.2.2)

/-- scheduler.ts lines 97-136. -/
def TaskScheduler.processEligibleTasks (failOn : String → Bool)
    (resolver : DependencyResolver) (pool : WorkerPool) (store : TaskStore) :
    WorkerPool × TaskStore × List TickEvent :=
  let queuedTasks := store.findManyQueued
  if queuedTasks.isEmpty then (pool, store, [])
  else
    let eligibleTasks := resolver.getEligibleTasks queuedTasks
    admitLoop failOn eligibleTasks pool store

def submittedIds (evs : List TickEvent) : List String :=
  evs.filterMap fun e =>
    match e with
    | TickEvent.submit tid => some tid
    | _ => none

def failTail : Option String → List TickEvent
  | some tid => [TickEvent.writeFailed tid]
  | none => []

/-! ## Event-loop interleaving of poll ticks (scheduler.ts lines 76-92 and
167-186)

The JS event loop runs one synchronous segment at a time; `await` parks
the running call.  A poll tick is in flight from entering `poll`'s `try`
block until its `finally` runs.  The state counts, for each kind of
parked continuation, how many are pending:
- `pollTimers`: armed `setTimeout(() => this.poll(), interval)` callbacks;
- `ticksAwaitingQuery`: ticks parked at `await prisma.task.findMany`;
- `ticksWorking`: ticks whose query resolved and whose admission pass
  (which awaits status updates) has not reached `finally` yet;
- `poolActive`: tasks running in the worker pool, i.e. pending completion
  timers;
- `handlersAwaitingUpdate`: `handleTaskCompleted` calls parked at
  `await prisma.task.update`.
Admissions performed by a tick are charged when the tick finishes. -/

structure SchedState where
  pollTimers : Nat
  ticksAwaitingQuery : Nat
  ticksWorking : Nat
  poolActive : Nat
  handlersAwaitingUpdate : Nat
  maxConcurrentTasks : Nat
deriving DecidableEq, Repr

/-- Ticks currently in flight (started, not yet at `finally`). -/
def SchedState.ticksInFlight (s : SchedState) : Nat :=
  s.ticksAwaitingQuery + s.ticksWorking

/-- One event-loop step of the running scheduler (`stop()` is outside this
model: every step below is from the running state, scheduler.ts line 77
`isRunning` being true throughout). -/
inductive SchedStep : SchedState → SchedState → Prop where
  /-- A poll timer fires with pool capacity: the tick enters the try block
  and parks at the store query (lines 83-84, 99). -/
  | timerFireStart (s : SchedState) (h1 : 0 < s.pollTimers)
      (h2 : s.poolActive < s.maxConcurrentTasks) :
      SchedStep s { s with
        pollTimers := s.pollTimers - 1,
        ticksAwaitingQuery := s.ticksAwaitingQuery + 1 }
  /-- A poll timer fires with no capacity: the tick body is skipped and
  `finally` re-arms a timer synchronously, so the whole tick is one
  segment (lines 83, 88-91). -/
  | timerFireSkip (s : SchedState) (h1 : 0 < s.pollTimers)
      (h2 : ¬ s.poolActive < s.maxConcurrentTasks) :
      SchedStep s { s with pollTimers := s.pollTimers - 1 + 1 }
  /-- A parked store query resolves; the tick continues its admission
  pass (lines 99-135). -/
  | queryResolve (s : SchedState) (h : 0 < s.ticksAwaitingQuery) :
      SchedStep s { s with
        ticksAwaitingQuery := s.ticksAwaitingQuery - 1,
        ticksWorking := s.ticksWorking + 1 }
  /-- A working tick reaches `finally`, having admitted `k` tasks within
  capacity, and arms the next poll timer (lines 88-91). -/
  | tickFinish (s : SchedState) (k : Nat) (h : 0 < s.ticksWorking)
      (hk : s.poolActive + k ≤ s.maxConcurrentTasks) :
      SchedStep s { s with
        ticksWorking := s.ticksWorking - 1,
        pollTimers := s.pollTimers + 1,
        poolActive := s.poolActive + k }
  /-- A pool completion timer fires (worker-pool.ts lines 71-78): the slot
  is freed and `handleTaskCompleted` parks at the status update
  (scheduler.ts line 170). -/
  | completionFire (s : SchedState) (h : 0 < s.poolActive) :
      SchedStep s { s with
        poolActive := s.poolActive - 1,
        handlersAwaitingUpdate := s.handlersAwaitingUpdate + 1 }
  /-- A parked completion update resolves; the handler synchronously calls
  `this.poll()` (line 182), which parks at the store query — with no check
  that another tick is already in flight. -/
  | handlerResumeStart (s : SchedState) (h : 0 < s.handlersAwaitingUpdate)
      (h2 : s.poolActive < s.maxConcurrentTasks) :
      SchedStep s { s with
        handlersAwaitingUpdate := s.handlersAwaitingUpdate - 1,
        ticksAwaitingQuery := s.ticksAwaitingQuery + 1 }
  /-- As above but the pool is full: the extra `poll()` skips its body and
  arms a timer in `finally` (lines 83, 88-91). -/
  | handlerResumeSkip (s : SchedState) (h : 0 < s.handlersAwaitingUpdate)
      (h2 : ¬ s.poolActive < s.maxConcurrentTasks) :
      SchedStep s { s with
        handlersAwaitingUpdate := s.handlersAwaitingUpdate - 1,
        pollTimers := s.pollTimers + 1 }
  /-- The completion's status update fails: caught at lines 183-185, no
  extra poll. -/
  | handlerUpdateFail (s : SchedState) (h : 0 < s.handlersAwaitingUpdate) :
      SchedStep s { s with
        handlersAwaitingUpdate := s.handlersAwaitingUpdate - 1 }

def SchedReach : SchedState → SchedState → Prop :=
  Relation.ReflTransGen SchedStep

/-- The sub-relation containing only the fixed-interval chain (no
completion timer fires during the run): constructors as in `SchedStep`. -/
inductive SchedStepNoCompletion : SchedState → SchedState → Prop where
  | timerFireStart (s : SchedState) (h1 : 0 < s.pollTimers)
      (h2 : s.poolActive < s.maxConcurrentTasks) :
      SchedStepNoCompletion s { s with
        pollTimers := s.pollTimers - 1,
        ticksAwaitingQuery := s.ticksAwaitingQuery + 1 }
  | timerFireSkip (s : SchedState) (h1 : 0 < s.pollTimers)
      (h2 : ¬ s.poolActive < s.maxConcurrentTasks) :
      SchedStepNoCompletion s { s with pollTimers := s.pollTimers - 1 + 1 }
  | queryResolve (s : SchedState) (h : 0 < s.ticksAwaitingQuery) :
      SchedStepNoCompletion s { s with
        ticksAwaitingQuery := s.ticksAwaitingQuery - 1,
        ticksWorking := s.ticksWorking + 1 }
  | tickFinish (s : SchedState) (k : Nat) (h : 0 < s.ticksWorking)
      (hk : s.poolActive + k ≤ s.maxConcurrentTasks) :
      SchedStepNoCompletion s { s with
        ticksWorking := s.ticksWorking - 1,
        pollTimers := s.pollTimers + 1,
        poolActive := s.poolActive + k }

def SchedReachNoCompletion : SchedState → SchedState → Prop :=
  Relation.ReflTransGen SchedStepNoCompletion

/-- State right after `start()` (scheduler.ts lines 40-52): the initial
`poll()` call is in flight, parked at the first query; nothing else. -/
def SchedState.afterStart (m : Nat) : SchedState :=
  { pollTimers := 0, ticksAwaitingQuery := 1, ticksWorking := 0,
    poolActive := 0, handlersAwaitingUpdate := 0, maxConcurrentTasks := m }

/-! ## JSON model (task.model.ts lines 31-43)

`JSON.stringify` / `JSON.parse` are runtime library functions; they are
embedded here: a full JSON value type, a recursive-descent parser
(`none` models a thrown `SyntaxError`), and the default stringify layout.
Numbers keep their lexeme (their numeric value, an IEEE double, plays no
role in any claim).  JS strings are UTF-16 and may hold lone surrogates;
Lean strings hold Unicode scalar values, so a decoded lone surrogate is
embedded as U+FFFD — irrelevant to the claims, which never produce one. -/

inductive Json where
  | null
  | bool (b : Bool)
  | num (lexeme : String)
  | str (s : String)
  | arr (elems : List Json)
  | obj (fields : List (String × Json))
deriving Repr

def skipWs : List Char → List Char
  | [] => []
  | c :: rest =>
      if c = ' ' ∨ c = '\t' ∨ c = '\n' ∨ c = '\x0d' then skipWs rest
      else c :: rest

def hexVal (c : Char) : Option Nat :=
  if '0' ≤ c ∧ c ≤ '9' then some (c.toNat - '0'.toNat)
  else if 'a' ≤ c ∧ c ≤ 'f' then some (c.toNat - 'a'.toNat + 10)
  else if 'A' ≤ c ∧ c ≤ 'F' then some (c.toNat - 'A'.toNat + 10)
  else none

def hex4 (a b c d : Char) : Option Nat :=
  match hexVal a, hexVal b, hexVal c, hexVal d with
  | some x, some y, some z, some w => some (4096 * x + 256 * y + 16 * z + w)
  | _, _, _, _ => none

/-- A decoded `\uXXXX` code unit as a scalar; a lone surrogate becomes
U+FFFD (see the section comment). -/
def codeUnitChar (n : Nat) : Char :=
  if 0xD800 ≤ n ∧ n ≤ 0xDFFF then Char.ofNat 0xFFFD else Char.ofNat n

def consStr (c : Char) :
    Option (List Char × List Char) → Option (List Char × List Char)
  | some (cs, rest) => some (c :: cs, rest)
  | none => none

mutual

/-- JSON string body after the opening quote: literal characters (raw
control characters are a syntax error), escapes, closing quote. -/
def parseStringBody : List Char → Option (List Char × List Char)
  | [] => none
  | c :: rest =>
      if c = '"' then some ([], rest)
      else if c = '\\' then parseEscape rest
      else if c.toNat < 0x20 then none
      else consStr c (parseStringBody rest)
termination_by cs => cs.length

def parseEscape : List Char → Option (List Char × List Char)
  | [] => none
  | e :: r =>
      if e = '"' then consStr '"' (parseStringBody r)
      else if e = '\\' then consStr '\\' (parseStringBody r)
      else if e = '/' then consStr '/' (parseStringBody r)
      else if e = 'b' then consStr '\x08' (parseStringBody r)
      else if e = 'f' then consStr '\x0c' (parseStringBody r)
      else if e = 'n' then consStr '\n' (parseStringBody r)
      else if e = 'r' then consStr '\x0d' (parseStringBody r)
      else if e = 't' then consStr '\t' (parseStringBody r)
      else if e = 'u' then parseUnicodeEscape r
      else none
termination_by cs => cs.length

/-- `\uXXXX`; a high surrogate immediately followed by a `\uXXXX` low
surrogate decodes as one supplementary character (UTF-16 pairing). -/
def parseUnicodeEscape : List Char → Option (List Char × List Char)
  | a :: b :: c :: d :: r =>
      match hex4 a b c d with
      | none => none
      | some n =>
          if 0xD800 ≤ n ∧ n ≤ 0xDBFF then
            match r with
            | '\\' :: 'u' :: a2 :: b2 :: c2 :: d2 :: r2 =>
                match hex4 a2 b2 c2 d2 with
                | some m2 =>
                    if 0xDC00 ≤ m2 ∧ m2 ≤ 0xDFFF then
                      consStr
                        (Char.ofNat (0x10000 + 0x400 * (n - 0xD800) + (m2 - 0xDC00)))
                        (parseStringBody r2)
                    else consStr (codeUnitChar n)
                      (parseStringBody ('\\' :: 'u' :: a2 :: b2 :: c2 :: d2 :: r2))
                | none => consStr (codeUnitChar n)
                      (parseStringBody ('\\' :: 'u' :: a2 :: b2 :: c2 :: d2 :: r2))
            | other => consStr (codeUnitChar n) (parseStringBody other)
          else consStr (codeUnitChar n) (parseStringBody r)
  | _ => none
termination_by cs => cs.length

end

def takeDigits : List Char → List Char × List Char
  | [] => ([], [])
  | c :: rest =>
      if c.isDigit then
        let res := takeDigits rest
        (c :: res.1, res.2)
      else ([], c :: rest)

def parseIntPart : List Char → Option (List Char × List Char)
  | [] => none
  | c :: rest =>
      if c = '0' then some ([c], rest)
      else if c.isDigit then
        let res := takeDigits rest
        some (c :: res.1, res.2)
      else none

def parseFracPart : List Char → Option (List Char × List Char)
  | c :: rest =>
      if c = '.' then
        match takeDigits rest with
        | ([], _) => none
        | (ds, r) => some ('.' :: ds, r)
      else some ([], c :: rest)
  | [] => some ([], [])

def parseExpPart : List Char → Option (List Char × List Char)
  | c :: rest =>
      if c = 'e' ∨ c = 'E' then
        match rest with
        | s :: rest2 =>
            if s = '+' ∨ s = '-' then
              match takeDigits rest2 with
              | ([], _) => none
              | (ds, r) => some (c :: s :: ds, r)
            else
              match takeDigits rest with
              | ([], _) => none
              | (ds, r) => some (c :: ds, r)
        | [] => none
      else some ([], c :: rest)
  | [] => some ([], [])

def parseNumber (cs : List Char) : Option (Json × List Char) :=
  let sign : List Char × List Char :=
    match cs with
    | '-' :: rest => (['-'], rest)
    | _ => ([], cs)
  match parseIntPart sign.2 with
  | none => none
  | some (ip, cs2) =>
      match parseFracPart cs2 with
      | none => none
      | some (fp, cs3) =>
          match parseExpPart cs3 with
          | none => none
          | some (ep, cs4) => some (Json.num ⟨sign.1 ++ ip ++ fp ++ ep⟩, cs4)

def expectChars : List Char → List Char → Option (List Char)
  | [], cs => some cs
  | e :: es, c :: cs => if c = e then expectChars es cs else none
  | _ :: _, [] => none

mutual

def parseValue : Nat → List Char → Option (Json × List Char)
  | 0, _ => none
  | fuel + 1, cs =>
      match cs with
      | [] => none
      | c :: rest =>
          if c = 'n' then
            match expectChars ['u', 'l', 'l'] rest with
            | some rest2 => some (Json.null, rest2)
            | none => none
          else if c = 't' then
            match expectChars ['r', 'u', 'e'] rest with
            | some rest2 => some (Json.bool true, rest2)
            | none => none
          else if c = 'f' then
            match expectChars ['a', 'l', 's', 'e'] rest with
            | some rest2 => some (Json.bool false, rest2)
            | none => none
          else if c = '"' then
            match parseStringBody rest with
            | some (content, rest2) => some (Json.str ⟨content⟩, rest2)
            | none => none
          else if c = '[' then
            match skipWs rest with
            | [] => none
            | d :: rest2 =>
                if d = ']' then some (Json.arr [], rest2)
                else
                  match parseElems fuel (d :: rest2) with
                  | some (vs, rest3) => some (Json.arr vs, rest3)
                  | none => none
          else if c = '\x7b' then
            match skipWs rest with
            | [] => none
            | d :: rest2 =>
                if d = '\x7d' then some (Json.obj [], rest2)
                else
                  match parseMembers fuel (d :: rest2) with
                  | some (fs, rest3) => some (Json.obj fs, rest3)
                  | none => none
          else parseNumber (c :: rest)

def parseElems : Nat → List Char → Option (List Json × List Char)
  | 0, _ => none
  | fuel + 1, cs =>
      match parseValue fuel cs with
      | none => none
      | some (v, rest) =>
          match skipWs rest with
          | [] => none
          | d :: rest2 =>
              if d = ']' then some ([v], rest2)
              else if d = ',' then
                match parseElems fuel (skipWs rest2) with
                | none => none
                | some (vs, rest3) => some (v :: vs, rest3)
              else none

def parseMembers : Nat → List Char → Option (List (String × Json) × List Char)
  | 0, _ => none
  | fuel + 1, cs =>
      match cs with
      | '"' :: rest =>
          match parseStringBody rest with
          | none => none
          | some (key, rest2) =>
              match skipWs rest2 with
              | ':' :: rest3 =>
                  match parseValue fuel (skipWs rest3) with
                  | none => none
                  | some (v, rest4) =>
                      match skipWs rest4 with
                      | '\x7d' :: rest5 => some ([(⟨key⟩, v)], rest5)
                      | ',' :: rest5 =>
                          match parseMembers fuel (skipWs rest5) with
                          | none => none
                          | some (fs, rest6) => some ((⟨key⟩, v) :: fs, rest6)
                      | _ => none
              | _ => none
      | _ => none

end

/-- Model of `JSON.parse`: one value with surrounding whitespace, input
fully consumed; `none` models a thrown SyntaxError.  Fuel `length + 2`
always suffices because every recursive descent step consumes at least
one input character before spending a unit of fuel. -/
def jsonParse (s : String) : Option Json :=
  match parseValue (s.data.length + 2) (skipWs s.data) with
  | some (v, rest) => if (skipWs rest).isEmpty then some v else none
  | none => none

def hexDigitChar (n : Nat) : Char :=
  if n < 10 then Char.ofNat ('0'.toNat + n)
  else Char.ofNat ('a'.toNat + (n - 10))

/-- `JSON.stringify` escaping of one character: quote, backslash, the
short control escapes, `\u00XX` for other control characters, everything
else verbatim. -/
def encodeChar (c : Char) : List Char :=
  if c = '"' then ['\\', '"']
  else if c = '\\' then ['\\', '\\']
  else if c = '\x08' then ['\\', 'b']
  else if c = '\t' then ['\\', 't']
  else if c = '\n' then ['\\', 'n']
  else if c = '\x0c' then ['\\', 'f']
  else if c = '\x0d' then ['\\', 'r']
  else if c.toNat < 0x20 then
    ['\\', 'u', '0', '0', hexDigitChar (c.toNat / 16), hexDigitChar (c.toNat % 16)]
  else [c]

def encodeStringChars (s : String) : List Char :=
  '"' :: (s.data.map encodeChar).flatten ++ ['"']

/-- Array elements in `JSON.stringify`'s default layout: comma-separated,
no whitespace. -/
def encodeElemsChars : List String → List Char
  | [] => []
  | [s] => encodeStringChars s
  | s :: rest => encodeStringChars s ++ ',' :: encodeElemsChars rest

/-- task.model.ts lines 41-43: `JSON.stringify(dependencies || [])`; the
model has no `null`/`undefined` list, so the fallback collapses. -/
def stringifyDependencies (dependencies : List String) : String :=
  ⟨'[' :: encodeElemsChars dependencies ++ [']']⟩

/-- task.model.ts lines 31-38: `JSON.parse` in a try/catch whose catch
logs and returns `[]`.  The source has no runtime check that the parsed
value is an array of strings, so the result is the raw parsed value. -/
def parseDependencies (dependenciesJson : String) : Json :=
  match jsonParse dependenciesJson with
  | some v => v
  | none => Json.arr []

/-! ## Concrete instances used in witnesses and counterexamples -/

def taskA : Task :=
  { id := "a", type := "work", duration_ms := 10, status := TaskStatus.QUEUED,
    dependencies := [], created_at := 1, updated_at := 1 }

def taskB : Task :=
  { id := "b", type := "work", duration_ms := 10, status := TaskStatus.QUEUED,
    dependencies := [], created_at := 2, updated_at := 2 }

def taskC : Task :=
  { id := "c", type := "work", duration_ms := 10, status := TaskStatus.QUEUED,
    dependencies := [], created_at := 3, updated_at := 3 }

def failedTask : Task :=
  { id := "t1", type := "work", duration_ms := 5, status := TaskStatus.FAILED,
    dependencies := ["a"], created_at := 1, updated_at := 1 }

def resolverWithA : DependencyResolver := { completedTaskIds := ["a"] }

def poolWithA : WorkerPool :=
  { activeTaskCount := 1, maxConcurrentTasks := 2, runningTasks := ["a"] }

def opsC2 : List PoolOp :=
  [PoolOp.exec taskA, PoolOp.exec taskB, PoolOp.exec taskC,
   PoolOp.complete "a", PoolOp.exec taskC, PoolOp.cancel "b",
   PoolOp.shutdown, PoolOp.exec taskA]

def queuedRow (i : String) (ct : Nat) : Task :=
  { id := i, type := "work", duration_ms := 10, status := TaskStatus.QUEUED,
    dependencies := [], created_at := ct, updated_at := ct }

/-- A store whose rows are not in creation-time order: the backing store
(SQLite via Prisma) guarantees no particular row order for a query without
`orderBy`, so any row order can be returned. -/
def storeUnsorted : TaskStore :=
  { rows := [queuedRow "b" 5, queuedRow "a" 3, queuedRow "c" 4] }

/-! ## Lemmas and theorems -/

/-- Pool state well-formedness: the counter agrees with the table and the
table has no duplicate ids. -/
def WorkerPool.WellFormed (p : WorkerPool) : Prop :=
  p.activeTaskCount = (p.runningTasks.length : Int) ∧ p.runningTasks.Nodup

/-- Inductive invariant threaded through every pool operation. -/
def WorkerPool.Inv (p : WorkerPool) (m : Int) : Prop :=
  p.maxConcurrentTasks = m ∧ p.WellFormed ∧ p.activeTaskCount ≤ m

lemma WorkerPool.inv_new (m : Int) (hm : 0 ≤ m) : (WorkerPool.new m).Inv m := by
  refine ⟨rfl, ⟨rfl, List.nodup_nil⟩, hm⟩

lemma WorkerPool.executeTask_noCapacity {p : WorkerPool} (t : Task)
    (h : p.hasCapacity = false) : p.executeTask t = (false, p) := by
  simp [WorkerPool.executeTask, h]

lemma WorkerPool.executeTask_duplicate {p : WorkerPool} (t : Task)
    (h : t.id ∈ p.runningTasks) : p.executeTask t = (false, p) := by
  cases hc : p.hasCapacity <;> simp [WorkerPool.executeTask, hc, h]

lemma WorkerPool.executeTask_accept {p : WorkerPool} (t : Task)
    (hcap : p.hasCapacity = true) (hmem : t.id ∉ p.runningTasks) :
    p.executeTask t = (true, { p with
      activeTaskCount := p.activeTaskCount + 1,
      runningTasks := p.runningTasks ++ [t.id] }) := by
  simp [WorkerPool.executeTask, hcap, hmem]

lemma WorkerPool.nodup_append_singleton {l : List String} {x : String}
    (hnodup : l.Nodup) (hx : x ∉ l) : (l ++ [x]).Nodup := by
  simp [List.nodup_append, hnodup, hx]

lemma WorkerPool.inv_erase {p : WorkerPool} {m : Int} (tid : String)
    (hmem : tid ∈ p.runningTasks)
    (hmax : p.maxConcurrentTasks = m)
    (hcount : p.activeTaskCount = (p.runningTasks.length : Int))
    (hnodup : p.runningTasks.Nodup) (hle : p.activeTaskCount ≤ m) :
    WorkerPool.Inv { p with
      runningTasks := p.runningTasks.erase tid,
      activeTaskCount := p.activeTaskCount - 1 } m := by
  have hlen : (p.runningTasks.erase tid).length = p.runningTasks.length - 1 :=
    List.length_erase_of_mem hmem
  have hpos : 0 < p.runningTasks.length :=
    List.length_pos.mpr (List.ne_nil_of_mem hmem)
  refine ⟨hmax, ⟨?_, hnodup.erase tid⟩, ?_⟩
  · show p.activeTaskCount - 1 = ((p.runningTasks.erase tid).length : Int)
    rw [hcount, hlen]
    omega
  · show p.activeTaskCount - 1 ≤ m
    omega

lemma WorkerPool.inv_applyOp {p : WorkerPool} {m : Int} (op : PoolOp)
    (h : p.Inv m) : (p.applyOp op).Inv m := by
  obtain ⟨hmax, ⟨hcount, hnodup⟩, hle⟩ := h
  cases op with
  | exec t =>
      show ((p.executeTask t).2).Inv m
      by_cases hcap : p.hasCapacity = true
      · by_cases hmem : t.id ∈ p.runningTasks
        · rw [WorkerPool.executeTask_duplicate t hmem]
          exact ⟨hmax, ⟨hcount, hnodup⟩, hle⟩
        · rw [WorkerPool.executeTask_accept t hcap hmem]
          have hlt : p.activeTaskCount < p.maxConcurrentTasks := by
            simpa [WorkerPool.hasCapacity, decide_eq_true_iff] using hcap
          refine ⟨hmax, ⟨?_, WorkerPool.nodup_append_singleton hnodup hmem⟩, ?_⟩
          · show p.activeTaskCount + 1 = ((p.runningTasks ++ [t.id]).length : Int)
            rw [hcount, List.length_append, List.length_singleton]
            omega
          · show p.activeTaskCount + 1 ≤ m
            omega
      · rw [WorkerPool.executeTask_noCapacity t (by simpa using hcap)]
        exact ⟨hmax, ⟨hcount, hnodup⟩, hle⟩
  | complete tid =>
      show (p.completeTask tid).Inv m
      by_cases hmem : tid ∈ p.runningTasks
      · have : p.completeTask tid = { p with
            runningTasks := p.runningTasks.erase tid,
            activeTaskCount := p.activeTaskCount - 1 } := by
          simp [WorkerPool.completeTask, hmem]
        rw [this]
        exact WorkerPool.inv_erase tid hmem hmax hcount hnodup hle
      · have : p.completeTask tid = p := by
          simp [WorkerPool.completeTask, hmem]
        rw [this]
        exact ⟨hmax, ⟨hcount, hnodup⟩, hle⟩
  | cancel tid =>
      show ((p.cancelTask tid).2).Inv m
      by_cases hmem : tid ∈ p.runningTasks
      · have : (p.cancelTask tid).2 = { p with
            runningTasks := p.runningTasks.erase tid,
            activeTaskCount := p.activeTaskCount - 1 } := by
          simp [WorkerPool.cancelTask, hmem]
        rw [this]
        exact WorkerPool.inv_erase tid hmem hmax hcount hnodup hle
      · have : (p.cancelTask tid).2 = p := by
          simp [WorkerPool.cancelTask, hmem]
        rw [this]
        exact ⟨hmax, ⟨hcount, hnodup⟩, hle⟩
  | shutdown =>
      have h0 : (0 : Int) ≤ p.activeTaskCount := by rw [hcount]; positivity
      exact ⟨hmax, ⟨rfl, List.nodup_nil⟩, by
        show (0 : Int) ≤ m
        omega⟩

lemma WorkerPool.inv_runOps {p : WorkerPool} {m : Int} (ops : List PoolOp)
    (h : p.Inv m) : (p.runOps ops).Inv m := by
  induction ops generalizing p with
  | nil => simpa [WorkerPool.runOps] using h
  | cons op rest ih =>
      have := ih (WorkerPool.inv_applyOp op h)
      simpa [WorkerPool.runOps, List.foldl_cons] using this

/-! ### Claim C1: eligibility check -/

lemma isEligibleToRun_status_false {t : Task}
    (h : t.status = TaskStatus.RUNNING ∨ t.status = TaskStatus.COMPLETED)
    (r : DependencyResolver) : r.isEligibleToRun t = false := by
  have hc : (t.status == TaskStatus.RUNNING || t.status == TaskStatus.COMPLETED) = true := by
    rcases h with h | h <;> rw [h] <;> rfl
  simp [DependencyResolver.isEligibleToRun, hc]

lemma isEligibleToRun_status_cond {t : Task}
    (h1 : t.status ≠ TaskStatus.RUNNING) (h2 : t.status ≠ TaskStatus.COMPLETED) :
    (t.status == TaskStatus.RUNNING || t.status == TaskStatus.COMPLETED) = false := by
  cases ht : t.status with
  | QUEUED => rfl
  | RUNNING => exact absurd ht h1
  | COMPLETED => exact absurd ht h2
  | FAILED => rfl

/-- Claim C1: `isEligibleToRun` returns false when the status is RUNNING or
COMPLETED; otherwise it returns true when the dependency list is empty
(whatever the completed-set holds); otherwise it returns true iff every
dependency id lies in the completed-set; in particular a FAILED task whose
dependencies are all completed is reported eligible. -/
theorem isEligibleToRun_spec (r : DependencyResolver) (t : Task) :
    (t.status = TaskStatus.RUNNING ∨ t.status = TaskStatus.COMPLETED →
      r.isEligibleToRun t = false)
  ∧ (t.status ≠ TaskStatus.RUNNING → t.status ≠ TaskStatus.COMPLETED →
      t.dependencies = [] → r.isEligibleToRun t = true)
  ∧ (t.status ≠ TaskStatus.RUNNING → t.status ≠ TaskStatus.COMPLETED →
      (r.isEligibleToRun t = true ↔
        ∀ d ∈ t.dependencies, d ∈ r.completedTaskIds))
  ∧ (t.status = TaskStatus.FAILED →
      (∀ d ∈ t.dependencies, d ∈ r.completedTaskIds) →
      r.isEligibleToRun t = true) := by
  refine ⟨fun h => isEligibleToRun_status_false h r, ?_, ?_, ?_⟩
  · intro h1 h2 h3
    simp [DependencyResolver.isEligibleToRun, isEligibleToRun_status_cond h1 h2, h3]
  · intro h1 h2
    simp only [DependencyResolver.isEligibleToRun,
      isEligibleToRun_status_cond h1 h2, Bool.false_eq_true, if_false]
    cases hd : t.dependencies with
    | nil => simp
    | cons d ds => simp [List.all_eq_true]
  · intro hF hdeps
    have h1 : t.status ≠ TaskStatus.RUNNING := by rw [hF]; intro h; cases h
    have h2 : t.status ≠ TaskStatus.COMPLETED := by rw [hF]; intro h; cases h
    simp only [DependencyResolver.isEligibleToRun,
      isEligibleToRun_status_cond h1 h2, Bool.false_eq_true, if_false]
    cases hd : t.dependencies with
    | nil => simp
    | cons d ds =>
        simp only [List.isEmpty_cons, Bool.false_eq_true, if_false, List.all_eq_true]
        intro x hx
        have := hdeps x (by rw [hd]; exact hx)
        simpa using this

/-- Witness for C1 at a concrete FAILED task with a satisfied dependency. -/
theorem isEligibleToRun_spec_witness :
    failedTask.status = TaskStatus.FAILED
  ∧ (∀ d ∈ failedTask.dependencies, d ∈ resolverWithA.completedTaskIds)
  ∧ resolverWithA.isEligibleToRun failedTask = true :=
  ⟨rfl, by decide,
   (isEligibleToRun_spec resolverWithA failedTask).2.2.2 rfl (by decide)⟩

/-! ### Claim C2: concurrency ceiling -/

/-- Claim C2: from a fresh pool with `maxConcurrentTasks ≥ 1`, after any
sequence of pool operations the active count never exceeds the ceiling,
and `hasCapacity` is true exactly when the count is strictly below it. -/
theorem pool_capacity_invariant (m : Int) (hm : 1 ≤ m) (ops : List PoolOp) :
    ((WorkerPool.new m).runOps ops).activeTaskCount ≤ m
  ∧ (((WorkerPool.new m).runOps ops).hasCapacity = true ↔
      ((WorkerPool.new m).runOps ops).activeTaskCount < m) := by
  obtain ⟨hmax, _, hle⟩ :=
    WorkerPool.inv_runOps ops (WorkerPool.inv_new m (by omega))
  exact ⟨hle, by simp [WorkerPool.hasCapacity, hmax]⟩

/-- Witness for C2 on a concrete operation sequence against a pool of 2. -/
theorem pool_capacity_invariant_witness :
    (1 : Int) ≤ 2
  ∧ (((WorkerPool.new 2).runOps opsC2).activeTaskCount ≤ 2
      ∧ (((WorkerPool.new 2).runOps opsC2).hasCapacity = true ↔
          ((WorkerPool.new 2).runOps opsC2).activeTaskCount < 2)) :=
  ⟨by norm_num, pool_capacity_invariant 2 (by norm_num) opsC2⟩

/-! ### Claim C3: rejected admission has no side effect -/

/-- Claim C3: `executeTask` returns false and leaves the pool unchanged
whenever the pool lacks capacity or the task id is already active; hence
an active id cannot be admitted a second time while still active. -/
theorem executeTask_reject_no_side_effect (p : WorkerPool) (t : Task)
    (h : p.hasCapacity = false ∨ t.id ∈ p.runningTasks) :
    p.executeTask t = (false, p) := by
  cases h with
  | inl h => exact WorkerPool.executeTask_noCapacity t h
  | inr h => exact WorkerPool.executeTask_duplicate t h

/-- Witness for C3: the pool has capacity but "a" is already active, so a
second admission of task "a" is rejected with no state change. -/
theorem executeTask_reject_no_side_effect_witness :
    (poolWithA.hasCapacity = false ∨ taskA.id ∈ poolWithA.runningTasks)
  ∧ poolWithA.executeTask taskA = (false, poolWithA) :=
  ⟨Or.inr (by decide),
   executeTask_reject_no_side_effect poolWithA taskA (Or.inr (by decide))⟩

/-! ### Claim C9: count/table agreement -/

lemma WorkerPool.wf_applyOp {p : WorkerPool} (op : PoolOp)
    (h : p.WellFormed) : (p.applyOp op).WellFormed := by
  obtain ⟨hcount, hnodup⟩ := h
  cases op with
  | exec t =>
      show ((p.executeTask t).2).WellFormed
      by_cases hcap : p.hasCapacity = true
      · by_cases hmem : t.id ∈ p.runningTasks
        · rw [WorkerPool.executeTask_duplicate t hmem]; exact ⟨hcount, hnodup⟩
        · rw [WorkerPool.executeTask_accept t hcap hmem]
          refine ⟨?_, WorkerPool.nodup_append_singleton hnodup hmem⟩
          show p.activeTaskCount + 1 = ((p.runningTasks ++ [t.id]).length : Int)
          rw [hcount, List.length_append, List.length_singleton]
          omega
      · rw [WorkerPool.executeTask_noCapacity t (by simpa using hcap)]
        exact ⟨hcount, hnodup⟩
  | complete tid =>
      show (p.completeTask tid).WellFormed
      by_cases hmem : tid ∈ p.runningTasks
      · have hcomp : p.completeTask tid = { p with
            runningTasks := p.runningTasks.erase tid,
            activeTaskCount := p.activeTaskCount - 1 } := by
          simp [WorkerPool.completeTask, hmem]
        rw [hcomp]
        have hlen : (p.runningTasks.erase tid).length = p.runningTasks.length - 1 :=
          List.length_erase_of_mem hmem
        have hpos : 0 < p.runningTasks.length :=
          List.length_pos.mpr (List.ne_nil_of_mem hmem)
        refine ⟨?_, hnodup.erase tid⟩
        show p.activeTaskCount - 1 = ((p.runningTasks.erase tid).length : Int)
        rw [hcount, hlen]
        omega
      · have hcomp : p.completeTask tid = p := by
          simp [WorkerPool.completeTask, hmem]
        rw [hcomp]; exact ⟨hcount, hnodup⟩
  | cancel tid =>
      show ((p.cancelTask tid).2).WellFormed
      by_cases hmem : tid ∈ p.runningTasks
      · have hcanc : (p.cancelTask tid).2 = { p with
            runningTasks := p.runningTasks.erase tid,
            activeTaskCount := p.activeTaskCount - 1 } := by
          simp [WorkerPool.cancelTask, hmem]
        rw [hcanc]
        have hlen : (p.runningTasks.erase tid).length = p.runningTasks.length - 1 :=
          List.length_erase_of_mem hmem
        have hpos : 0 < p.runningTasks.length :=
          List.length_pos.mpr (List.ne_nil_of_mem hmem)
        refine ⟨?_, hnodup.erase tid⟩
        show p.activeTaskCount - 1 = ((p.runningTasks.erase tid).length : Int)
        rw [hcount, hlen]
        omega
      · have hcanc : (p.cancelTask tid).2 = p := by
          simp [WorkerPool.cancelTask, hmem]
        rw [hcanc]; exact ⟨hcount, hnodup⟩
  | shutdown => exact ⟨rfl, List.nodup_nil⟩

lemma WorkerPool.wf_runOps {p : WorkerPool} (ops : List PoolOp)
    (h : p.WellFormed) : (p.runOps ops).WellFormed := by
  induction ops generalizing p with
  | nil => simpa [WorkerPool.runOps] using h
  | cons op rest ih =>
      have := ih (WorkerPool.wf_applyOp op h)
      simpa [WorkerPool.runOps, List.foldl_cons] using this

/-- Claim C9: after any sequence of completed pool operations from a fresh
pool, the active count equals the number of active-run entries, so
`getActiveTaskCount` and `getRunningTaskIds().length` agree at operation
boundaries. -/
theorem activeCount_matches_runningTasks (m : Int) (ops : List PoolOp) :
    ((WorkerPool.new m).runOps ops).getActiveTaskCount
      = ((((WorkerPool.new m).runOps ops).getRunningTaskIds).length : Int) :=
  (WorkerPool.wf_runOps ops ⟨rfl, List.nodup_nil⟩).1

/-! ### Claim C7: effect order inside executeTask -/

/-- Counterexample to claim C7: on the accepted admission of task "a" into
a fresh pool of 1, the trace order is increment, emit, schedule, record —
and at the moment the started event is emitted the active-run table does
not yet contain "a" (the claim asserts it already does). -/
theorem executeTask_emit_before_record_counterexample :
    ((WorkerPool.new 1).executeTaskTrace taskA).map Prod.fst
      = [PoolMicroEvent.incrementCount, PoolMicroEvent.emitStarted,
         PoolMicroEvent.scheduleExecution, PoolMicroEvent.recordEntry]
  ∧ ∃ s, (PoolMicroEvent.emitStarted, s) ∈ (WorkerPool.new 1).executeTaskTrace taskA
      ∧ taskA.id ∉ s.runningTasks := by
  refine ⟨by decide, ⟨⟨1, 1, []⟩, by decide, by decide⟩⟩

/-- Claim C7 (amended): on acceptance the effects occur in the order
count increment, synchronous started emit, execution scheduling, entry
record; at the moment the started event fires the count is already
incremented but the active-run table does not yet contain the entry; the
state at the record step is the post-call pool state. -/
theorem executeTask_microstep_order (p : WorkerPool) (t : Task)
    (hcap : p.hasCapacity = true) (hmem : t.id ∉ p.runningTasks) :
    (p.executeTaskTrace t).map Prod.fst
      = [PoolMicroEvent.incrementCount, PoolMicroEvent.emitStarted,
         PoolMicroEvent.scheduleExecution, PoolMicroEvent.recordEntry]
  ∧ (∀ s, (PoolMicroEvent.emitStarted, s) ∈ p.executeTaskTrace t →
      s.activeTaskCount = p.activeTaskCount + 1 ∧ t.id ∉ s.runningTasks)
  ∧ (∀ s, (PoolMicroEvent.recordEntry, s) ∈ p.executeTaskTrace t →
      s.runningTasks = p.runningTasks ++ [t.id] ∧ s = (p.executeTask t).2) := by
  have htr : p.executeTaskTrace t =
      [(PoolMicroEvent.incrementCount,
          { p with activeTaskCount := p.activeTaskCount + 1 }),
       (PoolMicroEvent.emitStarted,
          { p with activeTaskCount := p.activeTaskCount + 1 }),
       (PoolMicroEvent.scheduleExecution,
          { p with activeTaskCount := p.activeTaskCount + 1 }),
       (PoolMicroEvent.recordEntry,
          { p with activeTaskCount := p.activeTaskCount + 1,
                   runningTasks := p.runningTasks ++ [t.id] })] := by
    simp [WorkerPool.executeTaskTrace, hcap, hmem]
  refine ⟨by rw [htr]; rfl, ?_, ?_⟩
  · intro s hs
    rw [htr] at hs
    simp only [List.mem_cons, List.not_mem_nil, or_false, Prod.mk.injEq] at hs
    rcases hs with ⟨h, rfl⟩ | ⟨h, rfl⟩ | ⟨h, rfl⟩ | ⟨h, rfl⟩ <;>
      first
        | exact ⟨rfl, hmem⟩
        | cases h
  · intro s hs
    rw [htr] at hs
    simp only [List.mem_cons, List.not_mem_nil, or_false, Prod.mk.injEq] at hs
    rcases hs with ⟨h, rfl⟩ | ⟨h, rfl⟩ | ⟨h, rfl⟩ | ⟨h, rfl⟩ <;>
      first
        | exact ⟨rfl, by rw [WorkerPool.executeTask_accept t hcap hmem]⟩
        | cases h

/-- Witness for the amended C7 at a fresh pool of 2 admitting task "b". -/
theorem executeTask_microstep_order_witness :
    (WorkerPool.new 2).hasCapacity = true
  ∧ taskB.id ∉ (WorkerPool.new 2).runningTasks
  ∧ (((WorkerPool.new 2).executeTaskTrace taskB).map Prod.fst
      = [PoolMicroEvent.incrementCount, PoolMicroEvent.emitStarted,
         PoolMicroEvent.scheduleExecution, PoolMicroEvent.recordEntry]
    ∧ (∀ s, (PoolMicroEvent.emitStarted, s) ∈ (WorkerPool.new 2).executeTaskTrace taskB →
        s.activeTaskCount = (WorkerPool.new 2).activeTaskCount + 1
          ∧ taskB.id ∉ s.runningTasks)
    ∧ (∀ s, (PoolMicroEvent.recordEntry, s) ∈ (WorkerPool.new 2).executeTaskTrace taskB →
        s.runningTasks = (WorkerPool.new 2).runningTasks ++ [taskB.id]
          ∧ s = ((WorkerPool.new 2).executeTask taskB).2)) :=
  ⟨by decide, by decide,
   executeTask_microstep_order (WorkerPool.new 2) taskB (by decide) (by decide)⟩

/-! ### Claim C4: fetch order and admission order -/

/-- Counterexample to claim C4: the scheduler's store query carries no
`orderBy`, so the fetched sequence of QUEUED tasks is the store's row
order; for the store whose rows carry creation times 5, 3, 4 the fetched
sequence is ordered neither by ascending nor by descending creation
time. -/
theorem fetchQueued_not_sorted_counterexample :
    (storeUnsorted.findManyQueued).map Task.created_at = [5, 3, 4]
  ∧ ¬ List.Sorted (· ≤ ·) ((storeUnsorted.findManyQueued).map Task.created_at)
  ∧ ¬ List.Sorted (· ≥ ·) ((storeUnsorted.findManyQueued).map Task.created_at) := by
  refine ⟨by decide, by decide, by decide⟩

lemma submittedIds_cons_pair (tid : String) (evs : List TickEvent) :
    submittedIds (TickEvent.writeRunning tid :: TickEvent.submit tid :: evs)
      = tid :: submittedIds evs := by
  simp [submittedIds]

lemma admitLoop_submittedIds (tasks : List Task) (pool : WorkerPool)
    (store : TaskStore)
    (hnodup : (tasks.map Task.id).Nodup)
    (hdisj : ∀ t ∈ tasks, t.id ∉ pool.runningTasks) :
    submittedIds (admitLoop (fun _ => false) tasks pool store).2.2
      = (tasks.map Task.id).take
          ((pool.maxConcurrentTasks - pool.activeTaskCount).toNat) := by
  induction tasks generalizing pool store with
  | nil => simp [admitLoop, submittedIds]
  | cons t rest ih =>
      by_cases hcap : pool.hasCapacity = true
      · have hlt : pool.activeTaskCount < pool.maxConcurrentTasks := by
          simpa [WorkerPool.hasCapacity, decide_eq_true_iff] using hcap
        have hmem : t.id ∉ pool.runningTasks := hdisj t (by simp)
        have hacc := WorkerPool.executeTask_accept
          (p := pool) { t with status := TaskStatus.RUNNING } hcap hmem
        have hstep : admitLoop (fun _ => false) (t :: rest) pool store
            = ((admitLoop (fun _ => false) rest (pool.executeTask
                  { t with status := TaskStatus.RUNNING }).2
                  (store.updateStatus t.id TaskStatus.RUNNING)).1,
               (admitLoop (fun _ => false) rest (pool.executeTask
                  { t with status := TaskStatus.RUNNING }).2
                  (store.updateStatus t.id TaskStatus.RUNNING)).2.1,
               TickEvent.writeRunning t.id :: TickEvent.submit t.id ::
                 (admitLoop (fun _ => false) rest (pool.executeTask
                    { t with status := TaskStatus.RUNNING }).2
                    (store.updateStatus t.id TaskStatus.RUNNING)).2.2) := by
          rw [admitLoop]
          simp [hcap]
        rw [hstep]
        simp only [submittedIds_cons_pair]
        have hcons : (Task.id t :: rest.map Task.id).Nodup := by
          simpa using hnodup
        have hnodup' : (rest.map Task.id).Nodup := (List.nodup_cons.mp hcons).2
        have hnotin : t.id ∉ rest.map Task.id := (List.nodup_cons.mp hcons).1
        have hdisj' : ∀ u ∈ rest, u.id ∉ ((pool.executeTask
            { t with status := TaskStatus.RUNNING }).2).runningTasks := by
          intro u hu
          rw [hacc]
          simp only [List.mem_append, List.mem_singleton]
          rintro (hl | hr)
          · exact hdisj u (List.mem_cons_of_mem t hu) hl
          · exact hnotin (by rw [← hr]; exact List.mem_map_of_mem Task.id hu)
        rw [ih ((pool.executeTask { t with status := TaskStatus.RUNNING }).2)
              (store.updateStatus t.id TaskStatus.RUNNING) hnodup' hdisj']
        rw [hacc]
        have harith :
            ((pool.maxConcurrentTasks - pool.activeTaskCount).toNat)
              = ((pool.maxConcurrentTasks - (pool.activeTaskCount + 1)).toNat) + 1 := by
          omega
        rw [List.map_cons, harith, List.take_succ_cons]
      · have hstep : admitLoop (fun _ => false) (t :: rest) pool store
            = (pool, store, []) := by
          rw [admitLoop]
          simp [hcap]
        have hz : (pool.maxConcurrentTasks - pool.activeTaskCount).toNat = 0 := by
          have : ¬ pool.activeTaskCount < pool.maxConcurrentTasks := by
            simpa [WorkerPool.hasCapacity, decide_eq_true_iff] using hcap
          omega
        rw [hstep, hz]
        simp [submittedIds]

/-- Claim C4 (amended): the fetched sequence is the QUEUED rows in store
order (the query applies no sorting), and in a failure-free admission pass
the tasks submitted to the pool are exactly the eligible tasks, in the
fetched order, up to the pool's free capacity at the start of the pass. -/
theorem poll_admission_order (resolver : DependencyResolver)
    (store : TaskStore) (pool : WorkerPool)
    (hnodup : ((resolver.getEligibleTasks store.findManyQueued).map Task.id).Nodup)
    (hdisj : ∀ t ∈ resolver.getEligibleTasks store.findManyQueued,
        t.id ∉ pool.runningTasks) :
    store.findManyQueued
        = store.rows.filter (fun r => r.status == TaskStatus.QUEUED)
  ∧ submittedIds
        (TaskScheduler.processEligibleTasks (fun _ => false) resolver pool store).2.2
      = ((resolver.getEligibleTasks store.findManyQueued).map Task.id).take
          ((pool.maxConcurrentTasks - pool.activeTaskCount).toNat) := by
  refine ⟨rfl, ?_⟩
  unfold TaskScheduler.processEligibleTasks
  by_cases hemp : store.findManyQueued.isEmpty
  · have h0 : store.findManyQueued = [] := by
      simpa [List.isEmpty_iff] using hemp
    simp [hemp, h0, DependencyResolver.getEligibleTasks, submittedIds]
  · simp only [hemp, Bool.false_eq_true, if_false]
    exact admitLoop_submittedIds _ pool store hnodup hdisj

/-- Witness for the amended C4: three independent queued tasks against a
fresh pool of 1 — only the first fetched task ("b") is submitted. -/
theorem poll_admission_order_witness :
    ((((DependencyResolver.mk []).getEligibleTasks
        storeUnsorted.findManyQueued).map Task.id).Nodup
  ∧ (∀ t ∈ (DependencyResolver.mk []).getEligibleTasks
        storeUnsorted.findManyQueued, t.id ∉ (WorkerPool.new 1).runningTasks))
  ∧ (storeUnsorted.findManyQueued
        = storeUnsorted.rows.filter (fun r => r.status == TaskStatus.QUEUED)
    ∧ submittedIds (TaskScheduler.processEligibleTasks (fun _ => false)
          (DependencyResolver.mk []) (WorkerPool.new 1) storeUnsorted).2.2
        = (((DependencyResolver.mk []).getEligibleTasks
              storeUnsorted.findManyQueued).map Task.id).take
            (((WorkerPool.new 1).maxConcurrentTasks
               - (WorkerPool.new 1).activeTaskCount).toNat)) :=
  ⟨⟨by decide, by decide⟩,
   poll_admission_order (DependencyResolver.mk []) storeUnsorted
     (WorkerPool.new 1) (by decide) (by decide)⟩

/-! ### Claim C5: RUNNING write precedes submission -/

lemma admitLoop_events (failOn : String → Bool) (tasks : List Task)
    (pool : WorkerPool) (store : TaskStore) :
    ∃ (admitted : List String) (failed : Option String),
      (admitLoop failOn tasks pool store).2.2
        = (admitted.map fun tid =>
            [TickEvent.writeRunning tid, TickEvent.submit tid]).flatten
          ++ failTail failed
      ∧ (∀ tid ∈ admitted, failOn tid = false)
      ∧ (∀ tid, failed = some tid → failOn tid = true) := by
  induction tasks generalizing pool store with
  | nil =>
      exact ⟨[], none, by simp [admitLoop, failTail], by simp, by simp⟩
  | cons t rest ih =>
      by_cases hcap : pool.hasCapacity = true
      · by_cases hfail : failOn t.id = true
        · refine ⟨[], some t.id, ?_, by simp, ?_⟩
          · rw [admitLoop]
            simp [hcap, hfail, failTail]
          · intro tid h
            obtain rfl : t.id = tid := by simpa using h
            exact hfail
        · obtain ⟨adm, fl, hEq, hAdm, hFl⟩ :=
            ih ((pool.executeTask { t with status := TaskStatus.RUNNING }).2)
               (store.updateStatus t.id TaskStatus.RUNNING)
          refine ⟨t.id :: adm, fl, ?_, ?_, hFl⟩
          · rw [admitLoop]
            simp only [hcap, Bool.not_true, Bool.false_eq_true, if_false, hfail]
            simp [hEq]
          · intro tid htid
            rcases List.mem_cons.mp htid with rfl | hmem
            · simpa using hfail
            · exact hAdm tid hmem
      · exact ⟨[], none, by rw [admitLoop]; simp [hcap, failTail], by simp, by simp⟩

lemma submit_mem_structure {admitted : List String} {failed : Option String}
    {tid : String}
    (h : TickEvent.submit tid ∈
      (admitted.map fun a =>
        [TickEvent.writeRunning a, TickEvent.submit a]).flatten ++ failTail failed) :
    tid ∈ admitted := by
  rcases List.mem_append.mp h with hl | hr
  · obtain ⟨l, hl1, hl2⟩ := List.mem_flatten.mp hl
    obtain ⟨a, ha, rfl⟩ := List.mem_map.mp hl1
    rcases List.mem_cons.mp hl2 with h1 | h1
    · cases h1
    · rcases List.mem_cons.mp h1 with h2 | h2
      · obtain rfl : tid = a := by injection h2
        exact ha
      · cases h2
  · cases failed with
    | none => simp [failTail] at hr
    | some a =>
        simp only [failTail, List.mem_singleton] at hr
        cases hr

/-- Claim C5: in every admission pass the effect trace is a sequence of
(successful RUNNING write, pool submission) pairs in that order, possibly
ended by one failed write; a task whose RUNNING write fails is never
submitted to the pool in that pass. -/
theorem processEligibleTasks_write_before_submit (failOn : String → Bool)
    (resolver : DependencyResolver) (pool : WorkerPool) (store : TaskStore) :
    ∃ (admitted : List String) (failed : Option String),
      (TaskScheduler.processEligibleTasks failOn resolver pool store).2.2
        = (admitted.map fun tid =>
            [TickEvent.writeRunning tid, TickEvent.submit tid]).flatten
          ++ failTail failed
      ∧ (∀ tid ∈ admitted, failOn tid = false)
      ∧ (∀ tid, failed = some tid → failOn tid = true
          ∧ TickEvent.submit tid ∉
              (TaskScheduler.processEligibleTasks failOn resolver pool store).2.2) := by
  unfold TaskScheduler.processEligibleTasks
  by_cases hemp : store.findManyQueued.isEmpty
  · exact ⟨[], none, by simp [hemp, failTail], by simp, by simp⟩
  · simp only [hemp, Bool.false_eq_true, if_false]
    obtain ⟨adm, fl, hEq, hAdm, hFl⟩ :=
      admitLoop_events failOn (resolver.getEligibleTasks store.findManyQueued)
        pool store
    refine ⟨adm, fl, hEq, hAdm, ?_⟩
    intro tid hfl
    refine ⟨hFl tid hfl, ?_⟩
    intro hmem
    rw [hEq] at hmem
    have : tid ∈ adm := submit_mem_structure hmem
    have := hAdm tid this
    rw [hFl tid hfl] at this
    cases this

/-! ### Claim C6: poll tick overlap -/

/-- Counterexample to claim C6: from the state right after `start()` with
a pool of 2, a reachable interleaving puts two poll ticks in flight at
once — a scheduled tick parks at its store query, a task completion fires
meanwhile, and `handleTaskCompleted`'s direct `this.poll()` call starts a
second tick with no coalescing, while the first is still unfinished. -/
theorem poll_ticks_can_overlap_counterexample :
    ∃ s, SchedReach (SchedState.afterStart 2) s ∧ 2 ≤ s.ticksInFlight := by
  refine ⟨⟨0, 2, 0, 0, 0, 2⟩, ?_, by decide⟩
  have h0 : SchedState.afterStart 2 = ⟨0, 1, 0, 0, 0, 2⟩ := rfl
  rw [show SchedReach = Relation.ReflTransGen SchedStep from rfl, h0]
  have s1 : SchedStep ⟨0, 1, 0, 0, 0, 2⟩ ⟨0, 0, 1, 0, 0, 2⟩ :=
    SchedStep.queryResolve ⟨0, 1, 0, 0, 0, 2⟩ (by decide)
  have s2 : SchedStep ⟨0, 0, 1, 0, 0, 2⟩ ⟨1, 0, 0, 1, 0, 2⟩ :=
    SchedStep.tickFinish ⟨0, 0, 1, 0, 0, 2⟩ 1 (by decide) (by decide)
  have s3 : SchedStep ⟨1, 0, 0, 1, 0, 2⟩ ⟨0, 1, 0, 1, 0, 2⟩ :=
    SchedStep.timerFireStart ⟨1, 0, 0, 1, 0, 2⟩ (by decide) (by decide)
  have s4 : SchedStep ⟨0, 1, 0, 1, 0, 2⟩ ⟨0, 1, 0, 0, 1, 2⟩ :=
    SchedStep.completionFire ⟨0, 1, 0, 1, 0, 2⟩ (by decide)
  have s5 : SchedStep ⟨0, 1, 0, 0, 1, 2⟩ ⟨0, 2, 0, 0, 0, 2⟩ :=
    SchedStep.handlerResumeStart ⟨0, 1, 0, 0, 1, 2⟩ (by decide) (by decide)
  exact Relation.ReflTransGen.head s1 (Relation.ReflTransGen.head s2
    (Relation.ReflTransGen.head s3 (Relation.ReflTransGen.head s4
      (Relation.ReflTransGen.head s5 Relation.ReflTransGen.refl))))

/-- Claim C6 (amended): the fixed-interval chain alone never overlaps —
in any run from the post-`start()` state in which no completion timer
fires, at most one poll tick is ever in flight, because the next poll
timer is armed only in a tick's `finally`; overlap arises only from the
completion-triggered direct `poll()` call, which is not coalesced. -/
theorem interval_chain_no_overlap (m : Nat) (s : SchedState)
    (h : SchedReachNoCompletion (SchedState.afterStart m) s) :
    s.ticksInFlight ≤ 1 := by
  have key : ∀ u, SchedReachNoCompletion (SchedState.afterStart m) u →
      u.ticksInFlight + u.pollTimers ≤ 1 := by
    intro u hu
    induction hu with
    | refl => simp [SchedState.afterStart, SchedState.ticksInFlight]
    | tail hab hbc ih =>
        cases hbc with
        | timerFireStart h1 h2 =>
            simp only [SchedState.ticksInFlight] at ih ⊢
            omega
        | timerFireSkip h1 h2 =>
            simp only [SchedState.ticksInFlight] at ih ⊢
            omega
        | queryResolve h1 =>
            simp only [SchedState.ticksInFlight] at ih ⊢
            omega
        | tickFinish k h1 hk =>
            simp only [SchedState.ticksInFlight] at ih ⊢
            omega
  have hs := key s h
  simp only [SchedState.ticksInFlight] at hs ⊢
  omega

/-- Witness for the amended C6: a two-step interval-chain run (query
resolves, tick finishes and arms the next timer) keeps at most one tick
in flight. -/
theorem interval_chain_no_overlap_witness :
    SchedReachNoCompletion (SchedState.afterStart 3) ⟨1, 0, 0, 0, 0, 3⟩
  ∧ SchedState.ticksInFlight ⟨1, 0, 0, 0, 0, 3⟩ ≤ 1 := by
  have h0 : SchedState.afterStart 3 = ⟨0, 1, 0, 0, 0, 3⟩ := rfl
  have s1 : SchedStepNoCompletion ⟨0, 1, 0, 0, 0, 3⟩ ⟨0, 0, 1, 0, 0, 3⟩ :=
    SchedStepNoCompletion.queryResolve ⟨0, 1, 0, 0, 0, 3⟩ (by decide)
  have s2 : SchedStepNoCompletion ⟨0, 0, 1, 0, 0, 3⟩ ⟨1, 0, 0, 0, 0, 3⟩ :=
    SchedStepNoCompletion.tickFinish ⟨0, 0, 1, 0, 0, 3⟩ 0 (by decide) (by decide)
  have r : SchedReachNoCompletion (SchedState.afterStart 3) ⟨1, 0, 0, 0, 0, 3⟩ := by
    rw [show SchedReachNoCompletion
        = Relation.ReflTransGen SchedStepNoCompletion from rfl, h0]
    exact Relation.ReflTransGen.head s1
      (Relation.ReflTransGen.head s2 Relation.ReflTransGen.refl)
  exact ⟨r, interval_chain_no_overlap 3 _ r⟩

/-! ### Claim C8: dependency list round-trip -/


lemma charOfNat_toNat (c : Char) : Char.ofNat c.toNat = c := by
  have hv : c.toNat.isValidChar := c.valid
  apply Char.eq_of_val_eq
  rw [Char.ofNat, dif_pos hv]
  apply UInt32.ext
  rfl

lemma hexVal_hexDigitChar : ∀ n < 16, hexVal (hexDigitChar n) = some n := by
  decide

lemma skipWs_cons (c : Char) (cs : List Char)
    (h : ¬(c = ' ' ∨ c = '\t' ∨ c = '\n' ∨ c = '\x0d')) :
    skipWs (c :: cs) = c :: cs := by
  simp [skipWs, h]

lemma parseStringBody_quote (l : List Char) :
    parseStringBody ('"' :: l) = some ([], l) := by
  simp [parseStringBody]

lemma parseStringBody_backslash (l : List Char) :
    parseStringBody ('\\' :: l) = parseEscape l := by
  simp [parseStringBody]

lemma parseStringBody_lit (c : Char) (l : List Char) (h1 : c ≠ '"')
    (h2 : c ≠ '\\') (h3 : ¬ c.toNat < 0x20) :
    parseStringBody (c :: l) = consStr c (parseStringBody l) := by
  simp [parseStringBody, h1, h2, h3]

lemma parseEscape_quote (l : List Char) :
    parseEscape ('"' :: l) = consStr '"' (parseStringBody l) := by
  unfold parseEscape
  rw [if_pos rfl]

lemma parseEscape_backslash (l : List Char) :
    parseEscape ('\\' :: l) = consStr '\\' (parseStringBody l) := by
  unfold parseEscape
  rw [if_neg (by decide), if_pos rfl]

lemma parseEscape_b (l : List Char) :
    parseEscape ('b' :: l) = consStr '\x08' (parseStringBody l) := by
  unfold parseEscape
  rw [if_neg (by decide), if_neg (by decide), if_neg (by decide), if_pos rfl]

lemma parseEscape_f (l : List Char) :
    parseEscape ('f' :: l) = consStr '\x0c' (parseStringBody l) := by
  unfold parseEscape
  rw [if_neg (by decide), if_neg (by decide), if_neg (by decide),
      if_neg (by decide), if_pos rfl]

lemma parseEscape_n (l : List Char) :
    parseEscape ('n' :: l) = consStr '\n' (parseStringBody l) := by
  unfold parseEscape
  rw [if_neg (by decide), if_neg (by decide), if_neg (by decide),
      if_neg (by decide), if_neg (by decide), if_pos rfl]

lemma parseEscape_r (l : List Char) :
    parseEscape ('r' :: l) = consStr '\x0d' (parseStringBody l) := by
  unfold parseEscape
  rw [if_neg (by decide), if_neg (by decide), if_neg (by decide),
      if_neg (by decide), if_neg (by decide), if_neg (by decide), if_pos rfl]

lemma parseEscape_t (l : List Char) :
    parseEscape ('t' :: l) = consStr '\t' (parseStringBody l) := by
  unfold parseEscape
  rw [if_neg (by decide), if_neg (by decide), if_neg (by decide),
      if_neg (by decide), if_neg (by decide), if_neg (by decide),
      if_neg (by decide), if_pos rfl]

lemma parseEscape_u (l : List Char) :
    parseEscape ('u' :: l) = parseUnicodeEscape l := by
  unfold parseEscape
  rw [if_neg (by decide), if_neg (by decide), if_neg (by decide),
      if_neg (by decide), if_neg (by decide), if_neg (by decide),
      if_neg (by decide), if_neg (by decide), if_pos rfl]

lemma hexQuad_encode (t : Nat) (h8 : t < 0x20) :
    hex4 '0' '0' (hexDigitChar (t / 16)) (hexDigitChar (t % 16)) = some t := by
  have hz : hexVal '0' = some 0 := by decide
  unfold hex4
  rw [hz, hexVal_hexDigitChar _ (by omega), hexVal_hexDigitChar _ (by omega)]
  simp only
  congr 1
  omega

set_option maxHeartbeats 1000000 in
lemma parseUnicodeEscape_encode (c : Char) (h8 : c.toNat < 0x20)
    (rest : List Char) :
    parseUnicodeEscape ('0' :: '0' :: hexDigitChar (c.toNat / 16)
        :: hexDigitChar (c.toNat % 16) :: rest)
      = consStr c (parseStringBody rest) := by
  unfold parseUnicodeEscape
  rw [hexQuad_encode c.toNat h8]
  simp only
  rw [if_neg (by omega)]
  rw [show codeUnitChar c.toNat = c by
    rw [codeUnitChar, if_neg (by omega), charOfNat_toNat]]

set_option maxHeartbeats 1000000 in
lemma parseStringBody_encodeChar (c : Char) (rest : List Char) :
    parseStringBody (encodeChar c ++ rest) = consStr c (parseStringBody rest) := by
  by_cases h1 : c = '"'
  · subst h1
    rw [show encodeChar '"' = ['\\', '"'] from rfl]
    rw [show (['\\', '"'] : List Char) ++ rest = '\\' :: '"' :: rest from rfl]
    rw [parseStringBody_backslash, parseEscape_quote]
  by_cases h2 : c = '\\'
  · subst h2
    rw [show encodeChar '\\' = ['\\', '\\'] from rfl]
    rw [show (['\\', '\\'] : List Char) ++ rest = '\\' :: '\\' :: rest from rfl]
    rw [parseStringBody_backslash, parseEscape_backslash]
  by_cases h3 : c = '\x08'
  · subst h3
    rw [show encodeChar '\x08' = ['\\', 'b'] from rfl]
    rw [show (['\\', 'b'] : List Char) ++ rest = '\\' :: 'b' :: rest from rfl]
    rw [parseStringBody_backslash, parseEscape_b]
  by_cases h4 : c = '\t'
  · subst h4
    rw [show encodeChar '\t' = ['\\', 't'] from rfl]
    rw [show (['\\', 't'] : List Char) ++ rest = '\\' :: 't' :: rest from rfl]
    rw [parseStringBody_backslash, parseEscape_t]
  by_cases h5 : c = '\n'
  · subst h5
    rw [show encodeChar '\n' = ['\\', 'n'] from rfl]
    rw [show (['\\', 'n'] : List Char) ++ rest = '\\' :: 'n' :: rest from rfl]
    rw [parseStringBody_backslash, parseEscape_n]
  by_cases h6 : c = '\x0c'
  · subst h6
    rw [show encodeChar '\x0c' = ['\\', 'f'] from rfl]
    rw [show (['\\', 'f'] : List Char) ++ rest = '\\' :: 'f' :: rest from rfl]
    rw [parseStringBody_backslash, parseEscape_f]
  by_cases h7 : c = '\x0d'
  · subst h7
    rw [show encodeChar '\x0d' = ['\\', 'r'] from rfl]
    rw [show (['\\', 'r'] : List Char) ++ rest = '\\' :: 'r' :: rest from rfl]
    rw [parseStringBody_backslash, parseEscape_r]
  by_cases h8 : c.toNat < 0x20
  · have henc : encodeChar c = ['\\', 'u', '0', '0',
        hexDigitChar (c.toNat / 16), hexDigitChar (c.toNat % 16)] := by
      unfold encodeChar
      rw [if_neg h1, if_neg h2, if_neg h3, if_neg h4, if_neg h5, if_neg h6,
          if_neg h7, if_pos h8]
    rw [henc]
    rw [show (['\\', 'u', '0', '0', hexDigitChar (c.toNat / 16),
        hexDigitChar (c.toNat % 16)] : List Char) ++ rest
      = '\\' :: 'u' :: '0' :: '0' :: hexDigitChar (c.toNat / 16)
          :: hexDigitChar (c.toNat % 16) :: rest from rfl]
    rw [parseStringBody_backslash, parseEscape_u]
    exact parseUnicodeEscape_encode c h8 rest
  · have henc : encodeChar c = [c] := by
      unfold encodeChar
      rw [if_neg h1, if_neg h2, if_neg h3, if_neg h4, if_neg h5, if_neg h6,
          if_neg h7, if_neg h8]
    rw [henc]
    rw [show ([c] : List Char) ++ rest = c :: rest from rfl]
    exact parseStringBody_lit c rest h1 h2 h8

lemma parseStringBody_encodeBody (l : List Char) (rest : List Char) :
    parseStringBody ((l.map encodeChar).flatten ++ '"' :: rest)
      = some (l, rest) := by
  induction l with
  | nil => simpa using parseStringBody_quote rest
  | cons c l ih =>
      rw [List.map_cons, List.flatten_cons, List.append_assoc,
          parseStringBody_encodeChar, ih]
      rfl

lemma parseValue_quote (f : Nat) (cs : List Char) :
    parseValue (f + 1) ('"' :: cs)
      = match parseStringBody cs with
        | some (content, rest2) => some (Json.str ⟨content⟩, rest2)
        | none => none := by
  simp [parseValue]

lemma parseValue_encodeString (f : Nat) (s : String) (rest : List Char) :
    parseValue (f + 1) (encodeStringChars s ++ rest) = some (Json.str s, rest) := by
  obtain ⟨l⟩ := s
  rw [show encodeStringChars ⟨l⟩ ++ rest
      = '"' :: ((l.map encodeChar).flatten ++ '"' :: rest) by
      simp [encodeStringChars]]
  rw [parseValue_quote, parseStringBody_encodeBody]

lemma parseElems_succ (f : Nat) (cs : List Char) :
    parseElems (f + 1) cs
      = match parseValue f cs with
        | none => none
        | some (v, rest) =>
            match skipWs rest with
            | [] => none
            | d :: rest2 =>
                if d = ']' then some ([v], rest2)
                else if d = ',' then
                  match parseElems f (skipWs rest2) with
                  | none => none
                  | some (vs, rest3) => some (v :: vs, rest3)
                else none := by
  simp [parseElems]

lemma parseElems_last (f : Nat) (cs rest : List Char) (v : Json)
    (hv : parseValue f cs = some (v, ']' :: rest)) :
    parseElems (f + 1) cs = some ([v], rest) := by
  rw [parseElems_succ, hv]
  simp only
  rw [skipWs_cons ']' rest (by decide)]
  simp

lemma parseElems_comma (f : Nat) (cs X : List Char) (v : Json)
    (hv : parseValue f cs = some (v, ',' :: X)) :
    parseElems (f + 1) cs
      = match parseElems f (skipWs X) with
        | none => none
        | some (vs, rest3) => some (v :: vs, rest3) := by
  rw [parseElems_succ, hv]
  simp only
  rw [skipWs_cons ',' X (by decide)]
  simp

lemma encodeElemsChars_cons (s : String) (ds : List String) :
    ∃ z, encodeElemsChars (s :: ds) = encodeStringChars s ++ z := by
  cases ds with
  | nil => exact ⟨[], by simp [encodeElemsChars]⟩
  | cons s2 ds2 => exact ⟨',' :: encodeElemsChars (s2 :: ds2), rfl⟩

lemma exists_cons_encodeElems (s : String) (ds : List String) :
    ∃ t, encodeElemsChars (s :: ds) = '"' :: t := by
  obtain ⟨z, hz⟩ := encodeElemsChars_cons s ds
  exact ⟨(s.data.map encodeChar).flatten ++ ['"'] ++ z, by
    simp [hz, encodeStringChars]⟩

lemma skipWs_encodeElems (s : String) (ds : List String) (rest : List Char) :
    skipWs (encodeElemsChars (s :: ds) ++ rest)
      = encodeElemsChars (s :: ds) ++ rest := by
  obtain ⟨t, ht⟩ := exists_cons_encodeElems s ds
  rw [ht]
  exact skipWs_cons '"' (t ++ rest) (by decide)

lemma parseElems_encode (ds : List String) : ∀ (s : String) (f : Nat),
    (s :: ds).length + 1 ≤ f → ∀ rest : List Char,
    parseElems f (encodeElemsChars (s :: ds) ++ ']' :: rest)
      = some ((s :: ds).map Json.str, rest) := by
  induction ds with
  | nil =>
      intro s f hf rest
      have h1 : 2 ≤ f := by simpa using hf
      obtain ⟨g, rfl⟩ : ∃ g, f = g + 1 := ⟨f - 1, by omega⟩
      obtain ⟨g2, rfl⟩ : ∃ g2, g = g2 + 1 := ⟨g - 1, by omega⟩
      rw [show encodeElemsChars [s] = encodeStringChars s from rfl]
      rw [parseElems_last (g2 + 1) _ rest (Json.str s)
        (parseValue_encodeString g2 s (']' :: rest))]
      rfl
  | cons s2 ds2 ih =>
      intro s f hf rest
      have h1 : ds2.length + 3 ≤ f := by
        simp only [List.length_cons] at hf
        omega
      obtain ⟨g, rfl⟩ : ∃ g, f = g + 1 := ⟨f - 1, by omega⟩
      obtain ⟨g2, rfl⟩ : ∃ g2, g = g2 + 1 := ⟨g - 1, by omega⟩
      rw [show encodeElemsChars (s :: s2 :: ds2) ++ ']' :: rest
          = encodeStringChars s
            ++ (',' :: (encodeElemsChars (s2 :: ds2) ++ ']' :: rest)) by
        rw [show encodeElemsChars (s :: s2 :: ds2)
            = encodeStringChars s ++ ',' :: encodeElemsChars (s2 :: ds2) from rfl]
        simp]
      rw [parseElems_comma (g2 + 1) _
            (encodeElemsChars (s2 :: ds2) ++ ']' :: rest) (Json.str s)
            (parseValue_encodeString g2 s _)]
      rw [skipWs_encodeElems s2 ds2 (']' :: rest)]
      rw [ih s2 (g2 + 1) (by simp only [List.length_cons] at h1 ⊢; omega) rest]
      rfl

lemma parseValue_lbracket (f : Nat) (l : List Char) :
    parseValue (f + 1) ('[' :: l)
      = match skipWs l with
        | [] => none
        | d :: rest2 =>
            if d = ']' then some (Json.arr [], rest2)
            else
              match parseElems f (d :: rest2) with
              | some (vs, rest3) => some (Json.arr vs, rest3)
              | none => none := by
  simp [parseValue]

lemma parseValue_lbracket_elems (f : Nat) (l : List Char) (d : Char)
    (r2 : List Char) (hskip : skipWs l = d :: r2) (hd : d ≠ ']') :
    parseValue (f + 1) ('[' :: l)
      = match parseElems f (d :: r2) with
        | some (vs, rest3) => some (Json.arr vs, rest3)
        | none => none := by
  rw [parseValue_lbracket, hskip]
  simp [hd]

lemma encodeElemsChars_length_ge (ds : List String) :
    ds.length ≤ (encodeElemsChars ds).length := by
  induction ds with
  | nil => simp [encodeElemsChars]
  | cons s ds ih =>
      cases ds with
      | nil => simp [encodeElemsChars, encodeStringChars]
      | cons s2 ds2 =>
          rw [show encodeElemsChars (s :: s2 :: ds2)
              = encodeStringChars s ++ ',' :: encodeElemsChars (s2 :: ds2) from rfl]
          simp only [List.length_cons, List.length_append, encodeStringChars] at ih ⊢
          omega

lemma jsonParse_stringify (deps : List String) :
    jsonParse (stringifyDependencies deps)
      = some (Json.arr (deps.map Json.str)) := by
  cases deps with
  | nil => rfl
  | cons s ds =>
      unfold jsonParse stringifyDependencies
      rw [show (String.mk ('[' :: encodeElemsChars (s :: ds) ++ [']'])).data
          = '[' :: encodeElemsChars (s :: ds) ++ [']'] from rfl]
      rw [List.cons_append]
      rw [skipWs_cons '[' (encodeElemsChars (s :: ds) ++ [']']) (by decide)]
      rw [show ('[' :: (encodeElemsChars (s :: ds) ++ [']'])).length + 2
          = ((encodeElemsChars (s :: ds)).length + 3) + 1 by
        simp]
      obtain ⟨t, ht⟩ := exists_cons_encodeElems s ds
      have hskip : skipWs (encodeElemsChars (s :: ds) ++ [']'])
          = '"' :: (t ++ [']']) := by
        rw [show encodeElemsChars (s :: ds) ++ [']'] = '"' :: (t ++ [']']) by
          rw [ht]; rfl]
        exact skipWs_cons '"' (t ++ [']']) (by decide)
      rw [parseValue_lbracket_elems _ _ '"' (t ++ [']']) hskip (by decide)]
      rw [show ('"' :: (t ++ [']'])) = encodeElemsChars (s :: ds) ++ ']' :: [] by
        rw [ht]; rfl]
      rw [parseElems_encode ds s ((encodeElemsChars (s :: ds)).length + 3)
          (by have := encodeElemsChars_length_ge (s :: ds)
              simp only [List.length_cons] at this ⊢
              omega) []]
      rfl

/-- Claim C8: serializing any dependency id list to its storage
representation and parsing it back yields the identical ordered sequence
of ids, as the JSON array of exactly those strings. -/
theorem parse_stringify_roundtrip (deps : List String) :
    parseDependencies (stringifyDependencies deps)
      = Json.arr (deps.map Json.str) := by
  unfold parseDependencies
  rw [jsonParse_stringify]

/-! ### Claim C10: total, fail-soft dependency parsing -/

/-- Claim C10: `parseDependencies` is total (the embedding is a function
defined on every input string — the try/catch in the source prevents any
raise), and on every input the JSON parser rejects (a thrown SyntaxError)
it returns the empty array, so a corrupted stored field reads back as "no
dependencies". -/
theorem parseDependencies_invalid (s : String) (h : jsonParse s = none) :
    parseDependencies s = Json.arr [] := by
  unfold parseDependencies
  rw [h]

/-- Witness for C10 on a concrete corrupted field. -/
theorem parseDependencies_invalid_witness :
    jsonParse "[oops" = none ∧ parseDependencies "[oops" = Json.arr [] :=
  ⟨rfl, parseDependencies_invalid "[oops" rfl⟩

end Sched

